import Mathlib

/-
Verification of the image padding-removal utilities of this repository.

Two source files are embedded:

* `static/Logo final/imagepadding/image_processor.py`
  (`ImagePaddingRemover`): variance-based boundary detection
  (`_compute_edge_boundaries`), margin adjustment and cropping
  (`remove_padding`), and a batch loop (`process_batch`).

* `static/assets/Logo final/imagepadding/imagedit.py` (`ImageProcessor`):
  alpha-based boundary detection and cropping (`remove_padding`), and a
  batch driver (`main`).

Pixel samples are embedded as rationals (numpy float arithmetic is exact on
the small integer values the proofs exercise, and the algorithm's structure
is preserved: population variance, max-based thresholds, first/last index
scans).  Fallible steps return `Except Err`; the error constructors follow
the taxonomy of the specification (`SourceNotFoundError`, `InvalidImageError`,
`UnsupportedFormatError`, `OutOfBoundsError`), where `invalidImage` models
the ValueError numpy raises when `np.max` is applied to an empty (zero-size)
variance axis, and `sourceNotFound` models Python's FileNotFoundError.
-/

namespace ImagePad

/-- Error taxonomy (spec section 7).  `sourceNotFound` models
FileNotFoundError, `invalidImage` models the numpy ValueError raised by a
reduction over a zero-size axis. -/
inductive Err where
  | sourceNotFound
  | invalidImage
  | unsupportedFormat
  | outOfBounds
  deriving DecidableEq

/-! ### Numeric helpers shared by the variance detector

`mean`/`variance` embed `np.mean` / `np.var` (population variance, the numpy
default `ddof=0`).  `npMax` embeds `np.max`, which raises on an empty array.
`npArgmax` embeds `np.argmax` on a boolean array: the index of the first
`True`, and `0` when every entry is `False`. -/

def mean (l : List ℚ) : ℚ := l.sum / l.length

def sqDev (m x : ℚ) : ℚ := (x - m) * (x - m)

def variance (l : List ℚ) : ℚ := (l.map (sqDev (mean l))).sum / l.length

def npMax : List ℚ → Except Err ℚ
  | [] => Except.error Err.invalidImage
  | x :: xs => Except.ok (xs.foldl max x)

def npArgmax (l : List Bool) : ℕ := if l.any id then l.findIdx id else 0

/-! ### The variance detector (`image_processor.py`)

`NpImage` is the numpy array handed to `_compute_edge_boundaries`: 2-D
(`ch = none`, `pix r c 0` is the sample) or 3-D with a channel axis
(`ch = some n`).  `toGray` is the `len(img_array.shape) == 3` branch:
`np.mean(img_array, axis=2)`. -/

structure GrayImage where
  h : ℕ
  w : ℕ
  pix : ℕ → ℕ → ℚ

structure NpImage where
  h : ℕ
  w : ℕ
  ch : Option ℕ
  pix : ℕ → ℕ → ℕ → ℚ

/-- Number of channels actually sampled (1 for a 2-D array). -/
def NpImage.nch (img : NpImage) : ℕ :=
  match img.ch with
  | none => 1
  | some n => n

def toGray (img : NpImage) : GrayImage :=
  match img.ch with
  | none => ⟨img.h, img.w, fun r c => img.pix r c 0⟩
  | some n => ⟨img.h, img.w, fun r c => mean ((List.range n).map (img.pix r c))⟩

def rowVals (g : GrayImage) (r : ℕ) : List ℚ := (List.range g.w).map (fun c => g.pix r c)

def colVals (g : GrayImage) (c : ℕ) : List ℚ := (List.range g.h).map (fun r => g.pix r c)

/-- `row_vars = np.var(gray_array, axis=1)`. -/
def rowVars (g : GrayImage) : List ℚ := (List.range g.h).map (fun r => variance (rowVals g r))

/-- `col_vars = np.var(gray_array, axis=0)`. -/
def colVars (g : GrayImage) : List ℚ := (List.range g.w).map (fun c => variance (colVals g c))

/-- `vars > max_var * (1 - threshold)` — the per-row/column content test
applied pointwise by `row_vars > row_threshold`. -/
def isContent (m thr v : ℚ) : Bool := decide (m * (1 - thr) < v)

/-- `_compute_edge_boundaries` (image_processor.py lines 29-58) on the
grayscale array: thresholds from the maximum variance, then first/last
index scans via `np.argmax`.  The row maximum is demanded before the column
maximum, matching the order in which the two `np.max` calls can raise. -/
def edgeBoundaries (g : GrayImage) (thr : ℚ) : Except Err (ℕ × ℕ × ℕ × ℕ) :=
  match npMax (rowVars g), npMax (colVars g) with
  | Except.error e, _ => Except.error e
  | Except.ok _, Except.error e => Except.error e
  | Except.ok mr, Except.ok mc =>
    let rflags := (rowVars g).map (isContent mr thr)
    let cflags := (colVars g).map (isContent mc thr)
    Except.ok (npArgmax rflags, (rowVars g).length - npArgmax rflags.reverse,
      npArgmax cflags, (colVars g).length - npArgmax cflags.reverse)

/-- `_compute_edge_boundaries` including the grayscale reduction. -/
def compute_edge_boundaries (img : NpImage) (thr : ℚ) : Except Err (ℕ × ℕ × ℕ × ℕ) :=
  edgeBoundaries (toGray img) thr

/-- The content-preservation adjustment of `remove_padding`
(image_processor.py lines 81-93): if the detected box is too small relative
to `min_content_ratio`, expand every side by `int(min(height, width) * 0.05)`
and clamp to the image bounds.  `mcf` is the `min_content_ratio` parameter;
`int(...)` truncation on the nonnegative product is the rational floor. -/
def adjustBox (mcf : ℚ) (h w t b l r : ℕ) : ℤ × ℤ × ℤ × ℤ :=
  if ((b : ℚ) - (t : ℚ)) / (h : ℚ) < mcf ∨ ((r : ℚ) - (l : ℚ)) / (w : ℚ) < mcf then
    let margin : ℤ := ⌊((min h w : ℕ) : ℚ) * (5 / 100)⌋
    (max 0 ((t : ℤ) - margin), min (h : ℤ) ((b : ℤ) + margin),
      max 0 ((l : ℤ) - margin), min (w : ℤ) ((r : ℤ) + margin))
  else ((t : ℤ), (b : ℤ), (l : ℤ), (r : ℤ))

/-- `img.crop((left, top, right, bottom))` in PIL box order, for the box
values actually produced (inside the image bounds). -/
def NpImage.crop (img : NpImage) (left top right bottom : ℤ) : NpImage :=
  ⟨(bottom - top).toNat, (right - left).toNat, img.ch,
    fun r c k => img.pix (top.toNat + r) (left.toNat + c) k⟩

/-- `ImagePaddingRemover.remove_padding` on an already-decoded image:
boundary detection, the min-content adjustment, then the crop.
`thr` and `mcf` are the constructor parameters `threshold` and
`min_content_ratio`. -/
def ipr_remove_padding (thr mcf : ℚ) (img : NpImage) : Except Err NpImage :=
  match compute_edge_boundaries img thr with
  | Except.error e => Except.error e
  | Except.ok (t, b, l, r) =>
    let box := adjustBox mcf img.h img.w t b l r
    Except.ok (img.crop box.2.2.1 box.1 box.2.2.2 box.2.1)

/-- `remove_padding` from a path: `Image.open` raises FileNotFoundError when
the source is missing.  The file system is a map from paths to decoded
images. -/
def iprLoadAndProcess (thr mcf : ℚ) (fs : String → Option NpImage) (path : String) :
    Except Err NpImage :=
  match fs path with
  | none => Except.error Err.sourceNotFound
  | some img => ipr_remove_padding thr mcf img

/-- `process_batch` (image_processor.py lines 104-114).  The loop body calls
`remove_padding` with no per-item exception handling, so the first failing
item raises out of the whole loop: the outputs written before the failure
are kept, the failure is reported once, and the remaining items are never
processed.  The result pairs each written output path
(`f"{output_dir}/processed_{idx}.png"`) with its image, plus the escaping
error if any. -/
def process_batch_from (thr mcf : ℚ) (fs : String → Option NpImage) (outDir : String) :
    ℕ → List String → List (String × NpImage) × Option Err
  | _, [] => ([], none)
  | idx, p :: ps =>
    match iprLoadAndProcess thr mcf fs p with
    | Except.error e => ([], some e)
    | Except.ok img =>
      let rest := process_batch_from thr mcf fs outDir (idx + 1) ps
      ((outDir ++ "/processed_" ++ toString idx ++ ".png", img) :: rest.1, rest.2)

def process_batch (thr mcf : ℚ) (fs : String → Option NpImage) (paths : List String)
    (outDir : String) : List (String × NpImage) × Option Err :=
  process_batch_from thr mcf fs outDir 0 paths

/-! ### The alpha detector (`imagedit.py`) -/

/-- PIL image modes used by the sources; `channels` is the number of raw
bands of the mode. -/
inductive Mode where
  | RGBA
  | RGB
  | L
  deriving DecidableEq

def Mode.channels : Mode → ℕ
  | .RGBA => 4
  | .RGB => 3
  | .L => 1

/-- A decoded PIL image.  `pix` always carries four sample slots; a mode
with fewer bands simply ignores the trailing ones (`RGB` the fourth, `L`
all but the first). -/
structure PILImage where
  mode : Mode
  h : ℕ
  w : ℕ
  pix : ℕ → ℕ → ℕ × ℕ × ℕ × ℕ

def alphaOf (p : ℕ × ℕ × ℕ × ℕ) : ℕ := p.2.2.2

/-- `img.convert('RGBA')` guarded by `if img.mode != 'RGBA'`
(imagedit.py lines 28-29): modes without an alpha band get alpha 255. -/
def toRGBA (img : PILImage) : PILImage :=
  match img.mode with
  | Mode.RGBA => img
  | Mode.RGB => ⟨Mode.RGBA, img.h, img.w, fun r c =>
      ((img.pix r c).1, (img.pix r c).2.1, (img.pix r c).2.2.1, 255)⟩
  | Mode.L => ⟨Mode.RGBA, img.h, img.w, fun r c =>
      ((img.pix r c).1, (img.pix r c).1, (img.pix r c).1, 255)⟩

/-- `rows = np.any(mask, axis=1)` at row `r`, with
`mask = img_data[:,:,3] > 0`. -/
def maskRow (img : PILImage) (r : ℕ) : Bool :=
  (List.range img.w).any (fun c => decide (0 < alphaOf (img.pix r c)))

/-- `cols = np.any(mask, axis=0)` at column `c`. -/
def maskCol (img : PILImage) (c : ℕ) : Bool :=
  (List.range img.h).any (fun r => decide (0 < alphaOf (img.pix r c)))

/-- `mask.any()`. -/
def maskAny (img : PILImage) : Bool := (List.range img.h).any (fun r => maskRow img r)

/-- `np.where(rows)[0]`: the indices of the rows containing content. -/
def contentRows (img : PILImage) : List ℕ :=
  (List.range img.h).filter (fun r => maskRow img r)

/-- `np.where(cols)[0]`. -/
def contentCols (img : PILImage) : List ℕ :=
  (List.range img.w).filter (fun c => maskCol img c)

/-- The bounding box of imagedit.py lines 35-47 as
`(top, bottom, left, right)`: `(ymin, ymax + 1, xmin, xmax + 1)` when some
pixel has nonzero alpha, and the full image bounds otherwise (the
`else: cropped = img` branch leaves the image uncropped). -/
def alphaCompute (img : PILImage) : ℕ × ℕ × ℕ × ℕ :=
  if maskAny img then
    ((contentRows img).headD 0, (contentRows img).getLastD 0 + 1,
      (contentCols img).headD 0, (contentCols img).getLastD 0 + 1)
  else (0, img.h, 0, img.w)

/-- PIL `img.crop((left, top, right, bottom))` for in-bounds boxes. -/
def PILImage.crop (img : PILImage) (left top right bottom : ℕ) : PILImage :=
  ⟨img.mode, bottom - top, right - left, fun r c => img.pix (top + r) (left + c)⟩

/-- `ImageProcessor.remove_padding` on a decoded image (imagedit.py lines
25-47): convert to RGBA, then crop to the alpha bounding box when any pixel
is non-transparent, otherwise keep the image unchanged. -/
def alphaProcess (img : PILImage) : PILImage :=
  let rgba := toRGBA img
  if maskAny rgba then
    let bb := alphaCompute rgba
    rgba.crop bb.2.2.1 bb.1 bb.2.2.2 bb.2.1
  else rgba

/-- The alpha detection step as implemented: every input is accepted after
the RGBA conversion; no failure path exists. -/
def alphaDetect (img : PILImage) : Except Err (ℕ × ℕ × ℕ × ℕ) :=
  Except.ok (alphaCompute (toRGBA img))

/-- Modelled from the spec: the contract of section 4.2 as written,
"requires a 4-channel (RGBA) buffer; fails with `UnsupportedFormatError` if
fewer than 4 channels are present".  Stated only to compare with the
implemented `alphaDetect`. -/
def alphaDetectSpec (img : PILImage) : Except Err (ℕ × ℕ × ℕ × ℕ) :=
  if Mode.channels img.mode < 4 then Except.error Err.unsupportedFormat
  else Except.ok (alphaCompute img)

/-- `remove_padding` from a path (imagedit.py lines 20-22 raise
FileNotFoundError for a missing source). -/
def imagedit_remove_padding (fs : String → Option PILImage) (path : String) :
    Except Err PILImage :=
  match fs path with
  | none => Except.error Err.sourceNotFound
  | some img => Except.ok (alphaProcess img)

/-- The batch loop of `main` (imagedit.py lines 89-103): each file name is
pre-checked with `os.path.exists`; a missing file is only logged as a
warning and skipped, and the remaining files are still processed.  Nothing
is returned per item; the result here is the list of files actually
processed, in order. -/
def imagedit_main (fs : String → Option PILImage) : List String → List (String × PILImage)
  | [] => []
  | f :: rest =>
    match fs f with
    | some img => (f, alphaProcess img) :: imagedit_main fs rest
    | none => imagedit_main fs rest

/-! ### Helper lemmas: variances are nonnegative, `npMax` facts -/

theorem variance_nonneg (l : List ℚ) : 0 ≤ variance l := by
  unfold variance
  apply div_nonneg
  · apply List.sum_nonneg
    intro x hx
    obtain ⟨y, _, rfl⟩ := List.mem_map.mp hx
    exact mul_self_nonneg _
  · exact Nat.cast_nonneg _

theorem le_foldl_max (a : ℚ) (l : List ℚ) : a ≤ l.foldl max a := by
  induction l generalizing a with
  | nil => exact le_refl a
  | cons b t ih => exact le_trans (le_max_left a b) (ih (max a b))

theorem npMax_nonneg {l : List ℚ} {m : ℚ} (hl : ∀ x ∈ l, 0 ≤ x)
    (hm : npMax l = Except.ok m) : 0 ≤ m := by
  cases l with
  | nil => simp [npMax] at hm
  | cons x xs =>
    simp only [npMax, Except.ok.injEq] at hm
    exact le_trans (hl x (by simp)) (hm ▸ le_foldl_max x xs)

theorem npMax_of_ne_nil {l : List ℚ} (h : l ≠ []) : ∃ m, npMax l = Except.ok m := by
  cases l with
  | nil => exact absurd rfl h
  | cons x xs => exact ⟨xs.foldl max x, rfl⟩

theorem mem_rowVars_nonneg (g : GrayImage) : ∀ x ∈ rowVars g, 0 ≤ x := by
  intro x hx
  obtain ⟨r, _, rfl⟩ := List.mem_map.mp hx
  exact variance_nonneg _

theorem mem_colVars_nonneg (g : GrayImage) : ∀ x ∈ colVars g, 0 ≤ x := by
  intro x hx
  obtain ⟨c, _, rfl⟩ := List.mem_map.mp hx
  exact variance_nonneg _

/-! ### Helper lemmas: `npArgmax` -/

theorem findIdx_le_of_true {l : List Bool} {j : ℕ} (hj : j < l.length)
    (ht : l.get ⟨j, hj⟩ = true) : l.findIdx id ≤ j := by
  induction l generalizing j with
  | nil => simp at hj
  | cons a t ih =>
    cases a with
    | true => simp [List.findIdx_cons]
    | false =>
      cases j with
      | zero => simp at ht
      | succ j' =>
        have hj' : j' < t.length := Nat.lt_of_succ_lt_succ hj
        have := ih hj' ht
        simp only [List.findIdx_cons, id, cond_false]
        omega

theorem findIdx_lt_of_any {l : List Bool} (h : l.any id = true) :
    l.findIdx id < l.length := by
  apply List.findIdx_lt_length_of_exists
  obtain ⟨x, hx, hpx⟩ := List.any_eq_true.mp h
  exact ⟨x, hx, hpx⟩

theorem npArgmax_all_false {l : List Bool} (h : l.any id = false) : npArgmax l = 0 := by
  unfold npArgmax
  simp [h]

theorem npArgmax_head_true {l : List Bool} (h : l.getD 0 false = true) : npArgmax l = 0 := by
  cases l with
  | nil => simp at h
  | cons a t =>
    simp only [List.getD_cons_zero] at h
    subst h
    unfold npArgmax
    simp [List.findIdx_cons]

theorem any_reverse_eq (l : List Bool) : l.reverse.any id = l.any id := by
  cases ha : l.any id with
  | true =>
    obtain ⟨x, hx, hpx⟩ := List.any_eq_true.mp ha
    exact List.any_eq_true.mpr ⟨x, List.mem_reverse.mpr hx, hpx⟩
  | false =>
    refine List.any_eq_false.mpr ?_
    intro x hx
    exact List.any_eq_false.mp ha x (List.mem_reverse.mp hx)

/-- The span between the first-match scan from the top and the backwards
scan is never degenerate: with `b = n - npArgmax l.reverse`, one always has
`npArgmax l < b` for a nonempty flag list. -/
theorem npArgmax_span {l : List Bool} (hl : 0 < l.length) :
    npArgmax l < l.length - npArgmax l.reverse := by
  by_cases h : l.any id = true
  · have hrev : l.reverse.any id = true := (any_reverse_eq l).symm ▸ h
    have hi : l.findIdx id < l.length := findIdx_lt_of_any h
    have hgi : l.get ⟨l.findIdx id, hi⟩ = true := by
      have := List.findIdx_getElem (p := id) (w := hi)
      simpa using this
    have hj : l.reverse.findIdx id ≤ l.length - 1 - l.findIdx id := by
      have hlen : l.length - 1 - l.findIdx id < l.reverse.length := by
        simp only [List.length_reverse]; omega
      apply findIdx_le_of_true hlen
      have := List.getElem_reverse (l := l) (i := l.length - 1 - l.findIdx id) hlen
      rw [List.get_eq_getElem, this]
      have heq : l.length - 1 - (l.length - 1 - l.findIdx id) = l.findIdx id := by omega
      simp only [heq]
      simpa using hgi
    unfold npArgmax
    rw [if_pos h, if_pos hrev]
    omega
  · have hfalse : l.any id = false := by
      cases ha : l.any id with
      | true => exact absurd ha h
      | false => rfl
    have hrev : l.reverse.any id = false := (any_reverse_eq l).symm ▸ hfalse
    rw [npArgmax_all_false hfalse, npArgmax_all_false hrev]
    omega

/-! ### Helper lemmas: first/last indices of a filtered range -/

theorem filter_range_headD {p : ℕ → Bool} {n : ℕ} (hn : 0 < n) (hp : p 0 = true) :
    ((List.range n).filter p).headD 0 = 0 := by
  obtain ⟨m, rfl⟩ := Nat.exists_eq_succ_of_ne_zero (Nat.pos_iff_ne_zero.mp hn)
  rw [List.range_succ_eq_map]
  simp [List.filter_cons, hp]

theorem filter_range_getLastD {p : ℕ → Bool} {n : ℕ} (hn : 0 < n)
    (hp : p (n - 1) = true) : ((List.range n).filter p).getLastD 0 = n - 1 := by
  obtain ⟨m, rfl⟩ := Nat.exists_eq_succ_of_ne_zero (Nat.pos_iff_ne_zero.mp hn)
  simp only [Nat.succ_sub_one] at hp ⊢
  rw [List.range_succ, List.filter_append]
  simp [List.filter_cons, hp, List.getLast?_concat]

theorem filter_range_singleton {p : ℕ → Bool} {n r0 : ℕ} (hr : r0 < n)
    (hp : ∀ r, r < n → (p r = true ↔ r = r0)) : (List.range n).filter p = [r0] := by
  induction n with
  | zero => omega
  | succ m ih =>
    rw [List.range_succ, List.filter_append]
    by_cases hm : r0 = m
    · have h1 : (List.range m).filter p = [] := by
        rw [List.filter_eq_nil_iff]
        intro a ha hpa
        have ham := List.mem_range.mp ha
        have := (hp a (by omega)).mp hpa
        omega
      have h2 : p m = true := (hp m (by omega)).mpr hm.symm
      rw [h1]
      simp [List.filter_cons, h2, hm]
    · have h2 : p m = false := by
        cases hc : p m with
        | true => exact absurd ((hp m (by omega)).mp hc) (fun h => hm h.symm)
        | false => rfl
      rw [ih (by omega) (fun r hrm => hp r (by omega))]
      simp [List.filter_cons, h2]

/-- The alpha bounding box is the full image whenever all four border
rows/columns contain content. -/
theorem alphaCompute_full {img : PILImage} (hh : 0 < img.h) (hw : 0 < img.w)
    (h0 : maskRow img 0 = true) (h1 : maskRow img (img.h - 1) = true)
    (c0 : maskCol img 0 = true) (c1 : maskCol img (img.w - 1) = true) :
    alphaCompute img = (0, img.h, 0, img.w) := by
  have hany : maskAny img = true := by
    unfold maskAny
    exact List.any_eq_true.mpr ⟨0, List.mem_range.mpr hh, h0⟩
  unfold alphaCompute contentRows contentCols
  rw [if_pos hany]
  rw [filter_range_headD hh h0, filter_range_getLastD hh h1,
    filter_range_headD hw c0, filter_range_getLastD hw c1]
  have e1 : img.h - 1 + 1 = img.h := Nat.succ_pred_eq_of_pos hh
  have e2 : img.w - 1 + 1 = img.w := Nat.succ_pred_eq_of_pos hw
  rw [e1, e2]

/-! ### Helper lemmas: uniform images -/

theorem map_const_range {f : ℕ → ℚ} {n : ℕ} {v : ℚ} (h : ∀ k, k < n → f k = v) :
    (List.range n).map f = List.replicate n v := by
  refine List.eq_replicate_iff.mpr ⟨by simp, ?_⟩
  intro b hb
  obtain ⟨k, hk, rfl⟩ := List.mem_map.mp hb
  exact h k (List.mem_range.mp hk)

theorem variance_replicate (n : ℕ) (v : ℚ) : variance (List.replicate n v) = 0 := by
  unfold variance
  cases n with
  | zero => simp
  | succ m =>
    have hmean : mean (List.replicate (m + 1) v) = v := by
      unfold mean
      rw [List.sum_replicate, List.length_replicate, nsmul_eq_mul]
      field_simp
    rw [hmean, List.map_replicate]
    have : sqDev v v = 0 := by unfold sqDev; ring
    rw [this, List.sum_replicate]
    simp

theorem foldl_max_zero (m : ℕ) : (List.replicate m (0 : ℚ)).foldl max 0 = 0 := by
  induction m with
  | zero => rfl
  | succ k ih =>
    rw [List.replicate_succ, List.foldl_cons, max_self]
    exact ih

theorem npMax_replicate_zero {n : ℕ} (hn : 0 < n) :
    npMax (List.replicate n (0 : ℚ)) = Except.ok 0 := by
  obtain ⟨m, rfl⟩ := Nat.exists_eq_succ_of_ne_zero (Nat.pos_iff_ne_zero.mp hn)
  rw [List.replicate_succ]
  show Except.ok ((List.replicate m (0 : ℚ)).foldl max 0) = Except.ok 0
  rw [foldl_max_zero]

theorem isContent_zero (thr : ℚ) : isContent 0 thr 0 = false := by
  unfold isContent
  simp

theorem any_replicate_false (n : ℕ) : (List.replicate n false).any id = false := by
  refine List.any_eq_false.mpr ?_
  intro x hx
  rw [List.eq_of_mem_replicate hx]
  simp

/-- `edgeBoundaries` on a uniform grayscale image: no variance exceeds the
threshold, the first-match scans default to index 0, and the full bounds
are returned without error. -/
theorem edgeBoundaries_uniform {g : GrayImage} (thr v : ℚ) (hh : 0 < g.h) (hw : 0 < g.w)
    (hv : ∀ r, r < g.h → ∀ c, c < g.w → g.pix r c = v) :
    edgeBoundaries g thr = Except.ok (0, g.h, 0, g.w) := by
  have hrv : rowVars g = List.replicate g.h 0 := by
    unfold rowVars
    apply map_const_range
    intro r hr
    have : rowVals g r = List.replicate g.w v := by
      unfold rowVals
      exact map_const_range (fun c hc => hv r hr c hc)
    rw [this, variance_replicate]
  have hcv : colVars g = List.replicate g.w 0 := by
    unfold colVars
    apply map_const_range
    intro c hc
    have : colVals g c = List.replicate g.h v := by
      unfold colVals
      exact map_const_range (fun r hr => hv r hr c hc)
    rw [this, variance_replicate]
  unfold edgeBoundaries
  rw [hrv, hcv, npMax_replicate_zero hh, npMax_replicate_zero hw]
  have hflags : ∀ n : ℕ, (List.replicate n (0 : ℚ)).map (isContent 0 thr) =
      List.replicate n false := by
    intro n
    rw [List.map_replicate, isContent_zero]
  simp only [hflags, List.reverse_replicate]
  rw [npArgmax_all_false (any_replicate_false g.h),
    npArgmax_all_false (any_replicate_false g.w)]
  simp

theorem toGray_h (img : NpImage) : (toGray img).h = img.h := by
  rcases img with ⟨h, w, ch, pix⟩
  cases ch <;> rfl

theorem toGray_w (img : NpImage) : (toGray img).w = img.w := by
  rcases img with ⟨h, w, ch, pix⟩
  cases ch <;> rfl

/-! ### The claims -/

/-- Claim C2: the content test compares each variance against
`max(variance) * (1 - similarityThreshold)` (the definition of `isContent`,
used verbatim by `edgeBoundaries`), so for `t1 ≤ t2` every row or column
classified as content under similarity threshold `t1` is also classified as
content under `t2`: a higher threshold is monotonically more permissive. -/
theorem variance_threshold_monotone (img : NpImage) (t1 t2 m v : ℚ) (hle : t1 ≤ t2)
    (hd : (npMax (rowVars (toGray img)) = Except.ok m ∧ v ∈ rowVars (toGray img)) ∨
      (npMax (colVars (toGray img)) = Except.ok m ∧ v ∈ colVars (toGray img)))
    (h1 : isContent m t1 v = true) : isContent m t2 v = true := by
  have hm : 0 ≤ m := by
    rcases hd with ⟨hmax, _⟩ | ⟨hmax, _⟩
    · exact npMax_nonneg (mem_rowVars_nonneg _) hmax
    · exact npMax_nonneg (mem_colVars_nonneg _) hmax
  unfold isContent at h1 ⊢
  rw [decide_eq_true_eq] at h1 ⊢
  calc m * (1 - t2) ≤ m * (1 - t1) := mul_le_mul_of_nonneg_left (by linarith) hm
    _ < v := h1

theorem variance_threshold_monotone_witness :
    isContent (1/4) (3/4) (1/4) = true := by
  apply variance_threshold_monotone ⟨2, 2, none, fun r c _ => if r = c then 0 else 1⟩
    (1/2) (3/4) (1/4) (1/4) (by norm_num)
  · exact Or.inl ⟨by norm_num [npMax, rowVars, rowVals, toGray, variance, mean, sqDev,
      List.range_succ],
      by norm_num [rowVars, rowVals, toGray, variance, mean, sqDev, List.range_succ]⟩
  · norm_num [isContent]

/-- Claim C3: on an RGBA image in which every pixel is fully transparent,
the alpha detector returns the full image bounds, so nothing is cropped. -/
theorem alpha_all_transparent_full_bounds (img : PILImage) (hmode : img.mode = Mode.RGBA)
    (hz : ∀ r, r < img.h → ∀ c, c < img.w → alphaOf (img.pix r c) = 0) :
    alphaDetect img = Except.ok (0, img.h, 0, img.w) := by
  rcases img with ⟨mode, h, w, pix⟩
  simp only at hmode hz
  subst hmode
  have hconv : toRGBA ⟨Mode.RGBA, h, w, pix⟩ = ⟨Mode.RGBA, h, w, pix⟩ := rfl
  unfold alphaDetect
  rw [hconv]
  have hany : maskAny ⟨Mode.RGBA, h, w, pix⟩ = false := by
    unfold maskAny maskRow
    refine List.any_eq_false.mpr ?_
    intro r hr
    simp only [Bool.not_eq_true, List.any_eq_false]
    intro c hc
    have := hz r (List.mem_range.mp hr) c (List.mem_range.mp hc)
    simp [this]
  unfold alphaCompute
  rw [if_neg (by simp [hany])]

theorem alpha_all_transparent_full_bounds_witness :
    alphaDetect ⟨Mode.RGBA, 2, 2, fun _ _ => (0, 0, 0, 0)⟩ = Except.ok (0, 2, 0, 2) :=
  alpha_all_transparent_full_bounds _ rfl (by decide)

/-- Claim C4: on a non-empty image whose pixels are all identical, the
variance detector neither errors nor crops from the top: the returned box
has `top = 0` (the first-match scan over an all-false flag vector defaults
to index 0). -/
theorem variance_uniform_top_zero (img : NpImage) (thr : ℚ) (hh : 0 < img.h)
    (hw : 0 < img.w)
    (huni : ∀ r, r < img.h → ∀ c, c < img.w → ∀ k, k < img.nch →
      img.pix r c k = img.pix 0 0 k) :
    ∃ b l r, compute_edge_boundaries img thr = Except.ok (0, b, l, r) := by
  rcases img with ⟨h, w, ch, pix⟩
  simp only at hh hw huni ⊢
  refine ⟨h, 0, w, ?_⟩
  unfold compute_edge_boundaries
  cases ch with
  | none =>
    have := edgeBoundaries_uniform (g := toGray ⟨h, w, none, pix⟩) thr (pix 0 0 0) hh hw ?_
    · exact this
    · intro r hr c hc
      exact huni r hr c hc 0 (by simp [NpImage.nch])
  | some n =>
    have := edgeBoundaries_uniform (g := toGray ⟨h, w, some n, pix⟩) thr
      (mean ((List.range n).map (pix 0 0))) hh hw ?_
    · exact this
    · intro r hr c hc
      show mean ((List.range n).map (pix r c)) = mean ((List.range n).map (pix 0 0))
      congr 1
      apply List.map_congr_left
      intro k hk
      exact huni r hr c hc k (by simpa [NpImage.nch] using List.mem_range.mp hk)

theorem variance_uniform_top_zero_witness :
    ∃ b l r, compute_edge_boundaries ⟨2, 3, some 3, fun _ _ _ => 5⟩ (99/100) =
      Except.ok (0, b, l, r) :=
  variance_uniform_top_zero _ (99/100) (by decide) (by decide) (by decide)

/-- Claim C5: whenever `contentHeight/height < min_content_ratio` or
`contentWidth/width < min_content_ratio`, the box is expanded on each side
by `margin = floor(min(height, width) * 0.05)` and clamped to the image
bounds; in particular any detected 5×5 box in a 100×100 image is expanded
by exactly 5 pixels on each side. -/
theorem margin_expansion_clamped :
    (∀ (mcf : ℚ) (h w t b l r : ℕ),
      ((b : ℚ) - (t : ℚ)) / (h : ℚ) < mcf ∨ ((r : ℚ) - (l : ℚ)) / (w : ℚ) < mcf →
      adjustBox mcf h w t b l r =
        (max 0 ((t : ℤ) - ⌊((min h w : ℕ) : ℚ) * (5 / 100)⌋),
          min (h : ℤ) ((b : ℤ) + ⌊((min h w : ℕ) : ℚ) * (5 / 100)⌋),
          max 0 ((l : ℤ) - ⌊((min h w : ℕ) : ℚ) * (5 / 100)⌋),
          min (w : ℤ) ((r : ℤ) + ⌊((min h w : ℕ) : ℚ) * (5 / 100)⌋))) ∧
    (∀ t l : ℕ, adjustBox (1/10) 100 100 t (t + 5) l (l + 5) =
      (max 0 ((t : ℤ) - 5), min 100 ((t : ℤ) + 10),
        max 0 ((l : ℤ) - 5), min 100 ((l : ℤ) + 10))) := by
  constructor
  · intro mcf h w t b l r hcond
    unfold adjustBox
    rw [if_pos hcond]
  · intro t l
    unfold adjustBox
    rw [if_pos (Or.inl (by push_cast; norm_num))]
    have hm : ⌊((min 100 100 : ℕ) : ℚ) * (5 / 100)⌋ = 5 := by norm_num
    rw [hm]
    push_cast
    ring_nf

theorem margin_expansion_clamped_witness :
    (((5 : ℕ) : ℚ) - ((0 : ℕ) : ℚ)) / ((100 : ℕ) : ℚ) < 1/10 ∧
    adjustBox (1/10) 100 100 0 5 0 5 =
      (max 0 ((0 : ℤ) - ⌊((min 100 100 : ℕ) : ℚ) * (5 / 100)⌋),
        min 100 ((5 : ℤ) + ⌊((min 100 100 : ℕ) : ℚ) * (5 / 100)⌋),
        max 0 ((0 : ℤ) - ⌊((min 100 100 : ℕ) : ℚ) * (5 / 100)⌋),
        min 100 ((5 : ℤ) + ⌊((min 100 100 : ℕ) : ℚ) * (5 / 100)⌋)) :=
  ⟨by norm_num, margin_expansion_clamped.1 (1/10) 100 100 0 5 0 5 (Or.inl (by norm_num))⟩

/-- Claim C6: on an RGBA image with exactly one pixel of nonzero alpha, at
row `r0` and column `c0`, the alpha detector returns the 1×1 box
`(r0, r0 + 1, c0, c0 + 1)` (half-open upper bounds). -/
theorem alpha_single_pixel_unit_box (img : PILImage) (r0 c0 : ℕ)
    (hmode : img.mode = Mode.RGBA) (hr : r0 < img.h) (hc : c0 < img.w)
    (hone : ∀ r, r < img.h → ∀ c, c < img.w →
      (0 < alphaOf (img.pix r c) ↔ (r = r0 ∧ c = c0))) :
    alphaDetect img = Except.ok (r0, r0 + 1, c0, c0 + 1) := by
  rcases img with ⟨mode, h, w, pix⟩
  simp only at hmode hr hc hone ⊢
  subst hmode
  have hrow : ∀ r, r < h → (maskRow ⟨Mode.RGBA, h, w, pix⟩ r = true ↔ r = r0) := by
    intro r hrh
    unfold maskRow
    rw [List.any_eq_true]
    constructor
    · rintro ⟨c, hcm, hpc⟩
      exact ((hone r hrh c (List.mem_range.mp hcm)).mp (of_decide_eq_true hpc)).1
    · rintro rfl
      exact ⟨c0, List.mem_range.mpr hc,
        decide_eq_true ((hone r hrh c0 hc).mpr ⟨rfl, rfl⟩)⟩
  have hcol : ∀ c, c < w → (maskCol ⟨Mode.RGBA, h, w, pix⟩ c = true ↔ c = c0) := by
    intro c hcw
    unfold maskCol
    rw [List.any_eq_true]
    constructor
    · rintro ⟨r, hrm, hpr⟩
      exact ((hone r (List.mem_range.mp hrm) c hcw).mp (of_decide_eq_true hpr)).2
    · rintro rfl
      exact ⟨r0, List.mem_range.mpr hr,
        decide_eq_true ((hone r0 hr c hcw).mpr ⟨rfl, rfl⟩)⟩
  have hrows : contentRows ⟨Mode.RGBA, h, w, pix⟩ = [r0] :=
    filter_range_singleton hr (fun r hrh => hrow r hrh)
  have hcols : contentCols ⟨Mode.RGBA, h, w, pix⟩ = [c0] :=
    filter_range_singleton hc (fun c hcw => hcol c hcw)
  have hany : maskAny ⟨Mode.RGBA, h, w, pix⟩ = true := by
    unfold maskAny
    exact List.any_eq_true.mpr ⟨r0, List.mem_range.mpr hr, (hrow r0 hr).mpr rfl⟩
  unfold alphaDetect
  show Except.ok (alphaCompute ⟨Mode.RGBA, h, w, pix⟩) = _
  unfold alphaCompute
  rw [if_pos hany, hrows, hcols]
  rfl

theorem alpha_single_pixel_unit_box_witness :
    alphaDetect ⟨Mode.RGBA, 2, 2, fun r c => if r = 1 ∧ c = 0 then (9, 9, 9, 7)
      else (0, 0, 0, 0)⟩ = Except.ok (1, 2, 0, 1) :=
  alpha_single_pixel_unit_box _ 1 0 rfl (by decide) (by decide) (by decide)

/-- Claim C7 counterexample: a 3-channel (RGB) buffer is not rejected with
`UnsupportedFormatError`; the implemented detector accepts it and returns a
box, while the detector written as the spec demands would have failed. -/
theorem alpha_lowchannel_no_error :
    Mode.channels Mode.RGB < 4 ∧
    alphaDetect ⟨Mode.RGB, 1, 1, fun _ _ => (10, 20, 30, 0)⟩ = Except.ok (0, 1, 0, 1) ∧
    alphaDetectSpec ⟨Mode.RGB, 1, 1, fun _ _ => (10, 20, 30, 0)⟩ =
      Except.error Err.unsupportedFormat :=
  ⟨by decide, rfl, rfl⟩

/-- Claim C7 amended: the alpha detector does not fail on buffers with fewer
than 4 channels; it first converts them to RGBA (PIL `convert` gives the
alpha-less modes alpha 255), so on any non-empty such buffer every pixel
becomes content and the full-image box is returned. -/
theorem alpha_lowchannel_converts (img : PILImage) (hlt : Mode.channels img.mode < 4)
    (hh : 0 < img.h) (hw : 0 < img.w) :
    alphaDetect img = Except.ok (0, img.h, 0, img.w) := by
  rcases img with ⟨mode, h, w, pix⟩
  simp only at hlt hh hw ⊢
  cases mode with
  | RGBA => exact absurd hlt (by decide)
  | RGB =>
    have hmr : ∀ r, maskRow ⟨Mode.RGBA, h, w,
        fun a b => ((pix a b).1, (pix a b).2.1, (pix a b).2.2.1, 255)⟩ r = true := by
      intro r
      unfold maskRow
      exact List.any_eq_true.mpr ⟨0, List.mem_range.mpr hw, rfl⟩
    have hmc : ∀ c, maskCol ⟨Mode.RGBA, h, w,
        fun a b => ((pix a b).1, (pix a b).2.1, (pix a b).2.2.1, 255)⟩ c = true := by
      intro c
      unfold maskCol
      exact List.any_eq_true.mpr ⟨0, List.mem_range.mpr hh, rfl⟩
    exact congrArg Except.ok (alphaCompute_full hh hw (hmr 0) (hmr (h - 1)) (hmc 0)
      (hmc (w - 1)))
  | L =>
    have hmr : ∀ r, maskRow ⟨Mode.RGBA, h, w,
        fun a b => ((pix a b).1, (pix a b).1, (pix a b).1, 255)⟩ r = true := by
      intro r
      unfold maskRow
      exact List.any_eq_true.mpr ⟨0, List.mem_range.mpr hw, rfl⟩
    have hmc : ∀ c, maskCol ⟨Mode.RGBA, h, w,
        fun a b => ((pix a b).1, (pix a b).1, (pix a b).1, 255)⟩ c = true := by
      intro c
      unfold maskCol
      exact List.any_eq_true.mpr ⟨0, List.mem_range.mpr hh, rfl⟩
    exact congrArg Except.ok (alphaCompute_full hh hw (hmr 0) (hmr (h - 1)) (hmc 0)
      (hmc (w - 1)))

theorem alpha_lowchannel_converts_witness :
    alphaDetect ⟨Mode.L, 2, 3, fun _ _ => (0, 0, 0, 0)⟩ = Except.ok (0, 2, 0, 3) :=
  alpha_lowchannel_converts _ (by decide) (by decide) (by decide)

theorem npMax_error_eq {l : List ℚ} {e : Err} (h : npMax l = Except.error e) :
    e = Err.invalidImage := by
  cases l with
  | nil =>
    simp only [npMax, Except.error.injEq] at h
    exact h.symm
  | cons x xs => simp [npMax] at h

/-- Claim C8: the variance boundary computation fails with
`InvalidImageError` (the reduction-over-empty-axis error) whenever the
buffer has zero rows or zero columns. -/
theorem variance_empty_invalid_image (img : NpImage) (thr : ℚ)
    (hz : img.h = 0 ∨ img.w = 0) :
    compute_edge_boundaries img thr = Except.error Err.invalidImage := by
  unfold compute_edge_boundaries edgeBoundaries
  rcases hz with hh | hw
  · have hrv : rowVars (toGray img) = [] := by
      unfold rowVars
      rw [toGray_h, hh]
      rfl
    rw [hrv]
    rfl
  · have hcv : colVars (toGray img) = [] := by
      unfold colVars
      rw [toGray_w, hw]
      rfl
    rw [hcv]
    cases hr : npMax (rowVars (toGray img)) with
    | error e => rw [npMax_error_eq hr]
    | ok mr => rfl

theorem variance_empty_invalid_image_witness :
    compute_edge_boundaries ⟨0, 7, none, fun _ _ _ => 3⟩ (99/100) =
      Except.error Err.invalidImage :=
  variance_empty_invalid_image _ (99/100) (Or.inl rfl)

/-- Claim C10: for every non-empty image the computed boundary box is never
degenerate: `0 ≤ top < bottom ≤ height` and `0 ≤ left < right ≤ width`
(the lower bounds hold by the types).  Covers both the some-flag-true case,
where `bottom` is the last matching index plus one, and the all-false case,
where `top = 0` and `bottom = height`. -/
theorem variance_box_nondegenerate (img : NpImage) (thr : ℚ) (hh : 0 < img.h)
    (hw : 0 < img.w) :
    ∃ t b l r, compute_edge_boundaries img thr = Except.ok (t, b, l, r) ∧
      t < b ∧ b ≤ img.h ∧ l < r ∧ r ≤ img.w := by
  have hrlen : (rowVars (toGray img)).length = img.h := by
    unfold rowVars
    rw [List.length_map, List.length_range, toGray_h]
  have hclen : (colVars (toGray img)).length = img.w := by
    unfold colVars
    rw [List.length_map, List.length_range, toGray_w]
  obtain ⟨mr, hmr⟩ := npMax_of_ne_nil (l := rowVars (toGray img))
    (List.ne_nil_of_length_pos (by omega))
  obtain ⟨mc, hmc⟩ := npMax_of_ne_nil (l := colVars (toGray img))
    (List.ne_nil_of_length_pos (by omega))
  unfold compute_edge_boundaries edgeBoundaries
  rw [hmr, hmc]
  refine ⟨_, _, _, _, rfl, ?_, ?_, ?_, ?_⟩
  · have hs := npArgmax_span (l := (rowVars (toGray img)).map (isContent mr thr))
      (by rw [List.length_map]; omega)
    rwa [List.length_map] at hs
  · rw [← hrlen]
    exact Nat.sub_le _ _
  · have hs := npArgmax_span (l := (colVars (toGray img)).map (isContent mc thr))
      (by rw [List.length_map]; omega)
    rwa [List.length_map] at hs
  · rw [← hclen]
    exact Nat.sub_le _ _

theorem variance_box_nondegenerate_witness :
    ∃ t b l r, compute_edge_boundaries ⟨1, 1, none, fun _ _ _ => 2⟩ (99/100) =
      Except.ok (t, b, l, r) ∧ t < b ∧ b ≤ 1 ∧ l < r ∧ r ≤ 1 :=
  variance_box_nondegenerate _ (99/100) (by decide) (by decide)

theorem npArgmax_rev_of_last {l : List Bool} (hlen : 0 < l.length)
    (hlast : l.getD (l.length - 1) false = true) : npArgmax l.reverse = 0 := by
  apply npArgmax_head_true
  rw [List.getD_eq_getElem?_getD, List.getElem?_reverse (by omega)]
  rw [List.getD_eq_getElem?_getD] at hlast
  simpa using hlast

theorem getD_map_head {f : ℚ → Bool} {l : List ℚ} (hlen : 0 < l.length)
    (h : f (l.getD 0 0) = true) : (l.map f).getD 0 false = true := by
  cases l with
  | nil => simp at hlen
  | cons x xs => simpa using h

theorem getD_map_last {f : ℚ → Bool} {l : List ℚ} (hlen : 0 < l.length)
    (h : f (l.getD (l.length - 1) 0) = true) :
    (l.map f).getD ((l.map f).length - 1) false = true := by
  have h1 : l.length - 1 < l.length := by omega
  have e1 : l.getD (l.length - 1) 0 = l[l.length - 1] := by
    rw [List.getD_eq_getElem?_getD, List.getElem?_eq_getElem h1]
    rfl
  have e2 : (l.map f).getD ((l.map f).length - 1) false = f (l[l.length - 1]) := by
    rw [List.getD_eq_getElem?_getD, List.length_map,
      List.getElem?_eq_getElem (by rw [List.length_map]; exact h1)]
    simp
  rw [e2, ← e1]
  exact h

/-- Claim C9: both detectors are idempotent on an image that is already a
minimal content box.  For the variance detector, "minimal" means the first
and last rows and columns all pass the content test (and the content ratio
`1` is not below `min_content_ratio ≤ 1`, so no margin expansion fires):
`remove_padding` then returns the image unchanged.  For the alpha detector,
"minimal" means the four border rows/columns each contain a pixel of
nonzero alpha: `remove_padding` crops to the full bounds, returning the
image unchanged. -/
theorem detectors_idempotent_on_minimal :
    (∀ (img : NpImage) (thr mcf mr mc : ℚ), mcf ≤ 1 → 0 < img.h → 0 < img.w →
      npMax (rowVars (toGray img)) = Except.ok mr →
      npMax (colVars (toGray img)) = Except.ok mc →
      isContent mr thr ((rowVars (toGray img)).getD 0 0) = true →
      isContent mr thr ((rowVars (toGray img)).getD (img.h - 1) 0) = true →
      isContent mc thr ((colVars (toGray img)).getD 0 0) = true →
      isContent mc thr ((colVars (toGray img)).getD (img.w - 1) 0) = true →
      ipr_remove_padding thr mcf img = Except.ok img) ∧
    (∀ img : PILImage, img.mode = Mode.RGBA → 0 < img.h → 0 < img.w →
      maskRow img 0 = true → maskRow img (img.h - 1) = true →
      maskCol img 0 = true → maskCol img (img.w - 1) = true →
      alphaProcess img = img) := by
  constructor
  · intro img thr mcf mr mc hmcf hh hw hmr hmc hr0 hr1 hc0 hc1
    have hrlen : (rowVars (toGray img)).length = img.h := by
      unfold rowVars
      rw [List.length_map, List.length_range, toGray_h]
    have hclen : (colVars (toGray img)).length = img.w := by
      unfold colVars
      rw [List.length_map, List.length_range, toGray_w]
    have hbound : compute_edge_boundaries img thr = Except.ok (0, img.h, 0, img.w) := by
      unfold compute_edge_boundaries edgeBoundaries
      rw [hmr, hmc]
      have ht : npArgmax ((rowVars (toGray img)).map (isContent mr thr)) = 0 :=
        npArgmax_head_true (getD_map_head (by omega) hr0)
      have hb : npArgmax ((rowVars (toGray img)).map (isContent mr thr)).reverse = 0 :=
        npArgmax_rev_of_last (by rw [List.length_map]; omega)
          (getD_map_last (by omega) (by rw [hrlen]; exact hr1))
      have hl : npArgmax ((colVars (toGray img)).map (isContent mc thr)) = 0 :=
        npArgmax_head_true (getD_map_head (by omega) hc0)
      have hr : npArgmax ((colVars (toGray img)).map (isContent mc thr)).reverse = 0 :=
        npArgmax_rev_of_last (by rw [List.length_map]; omega)
          (getD_map_last (by omega) (by rw [hclen]; exact hc1))
      show Except.ok (npArgmax ((rowVars (toGray img)).map (isContent mr thr)),
          (rowVars (toGray img)).length -
            npArgmax ((rowVars (toGray img)).map (isContent mr thr)).reverse,
          npArgmax ((colVars (toGray img)).map (isContent mc thr)),
          (colVars (toGray img)).length -
            npArgmax ((colVars (toGray img)).map (isContent mc thr)).reverse) =
        Except.ok (0, img.h, 0, img.w)
      rw [ht, hb, hl, hr, Nat.sub_zero, Nat.sub_zero, hrlen, hclen]
    have hadj : adjustBox mcf img.h img.w 0 img.h 0 img.w =
        ((0 : ℤ), (img.h : ℤ), (0 : ℤ), (img.w : ℤ)) := by
      unfold adjustBox
      split
      · next hcond =>
        exfalso
        have hh0 : (img.h : ℚ) ≠ 0 := Nat.cast_ne_zero.mpr (by omega)
        have hw0 : (img.w : ℚ) ≠ 0 := Nat.cast_ne_zero.mpr (by omega)
        rcases hcond with hc | hc
        · rw [Nat.cast_zero, sub_zero, div_self hh0] at hc
          linarith
        · rw [Nat.cast_zero, sub_zero, div_self hw0] at hc
          linarith
      · rfl
    rcases img with ⟨h, w, ch, pix⟩
    simp only at hbound hadj ⊢
    unfold ipr_remove_padding
    rw [hbound]
    show Except.ok ((NpImage.mk h w ch pix).crop (adjustBox mcf h w 0 h 0 w).2.2.1
      (adjustBox mcf h w 0 h 0 w).1 (adjustBox mcf h w 0 h 0 w).2.2.2
      (adjustBox mcf h w 0 h 0 w).2.1) = Except.ok (NpImage.mk h w ch pix)
    rw [hadj]
    refine congrArg Except.ok ?_
    unfold NpImage.crop
    simp only [sub_zero, Int.toNat_natCast, Int.toNat_zero, Nat.zero_add]
  · intro img hmode hh hw h0 h1 c0 c1
    rcases img with ⟨mode, h, w, pix⟩
    simp only at hmode hh hw h0 h1 c0 c1
    subst hmode
    have hbb : alphaCompute ⟨Mode.RGBA, h, w, pix⟩ =
        (0, (PILImage.mk Mode.RGBA h w pix).h, 0, (PILImage.mk Mode.RGBA h w pix).w) :=
      alphaCompute_full hh hw h0 h1 c0 c1
    have hany : maskAny ⟨Mode.RGBA, h, w, pix⟩ = true := by
      unfold maskAny
      exact List.any_eq_true.mpr ⟨0, List.mem_range.mpr hh, h0⟩
    unfold alphaProcess
    show (if maskAny ⟨Mode.RGBA, h, w, pix⟩ then
        PILImage.crop ⟨Mode.RGBA, h, w, pix⟩ (alphaCompute ⟨Mode.RGBA, h, w, pix⟩).2.2.1
          (alphaCompute ⟨Mode.RGBA, h, w, pix⟩).1 (alphaCompute ⟨Mode.RGBA, h, w, pix⟩).2.2.2
          (alphaCompute ⟨Mode.RGBA, h, w, pix⟩).2.1
      else ⟨Mode.RGBA, h, w, pix⟩) = ⟨Mode.RGBA, h, w, pix⟩
    rw [if_pos hany, hbb]
    unfold PILImage.crop
    simp only [Nat.sub_zero, Nat.zero_add]

theorem detectors_idempotent_on_minimal_witness :
    ipr_remove_padding (99/100) (1/10) ⟨2, 2, none, fun r c _ => if r = c then 0 else 1⟩ =
      Except.ok ⟨2, 2, none, fun r c _ => if r = c then 0 else 1⟩ ∧
    alphaProcess ⟨Mode.RGBA, 1, 1, fun _ _ => (0, 0, 0, 255)⟩ =
      ⟨Mode.RGBA, 1, 1, fun _ _ => (0, 0, 0, 255)⟩ := by
  constructor
  · apply detectors_idempotent_on_minimal.1 ⟨2, 2, none, fun r c _ => if r = c then 0 else 1⟩
      (99/100) (1/10) (1/4) (1/4) (by norm_num) (by decide) (by decide)
    · norm_num [npMax, rowVars, rowVals, toGray, variance, mean, sqDev, List.range_succ]
    · norm_num [npMax, colVars, colVals, toGray, variance, mean, sqDev, List.range_succ]
    · norm_num [rowVars, rowVals, toGray, variance, mean, sqDev, List.range_succ, isContent]
    · norm_num [rowVars, rowVals, toGray, variance, mean, sqDev, List.range_succ, isContent]
    · norm_num [colVars, colVals, toGray, variance, mean, sqDev, List.range_succ, isContent]
    · norm_num [colVars, colVals, toGray, variance, mean, sqDev, List.range_succ, isContent]
  · exact detectors_idempotent_on_minimal.2 ⟨Mode.RGBA, 1, 1, fun _ _ => (0, 0, 0, 255)⟩
      rfl (by decide) (by decide) (by decide) (by decide) (by decide) (by decide)

/-! ### A concrete batch run for the batch-isolation claim -/

/-- A three-item batch in which the second source is missing: a 1×1 blank
image at `a.png` and `c.png`, nothing at `b.png`. -/
def fs3 : String → Option NpImage := fun p =>
  if p = "a.png" then some ⟨1, 1, none, fun _ _ _ => 0⟩
  else if p = "c.png" then some ⟨1, 1, none, fun _ _ _ => 0⟩ else none

/-- The same batch for the alpha pipeline: 1×1 opaque images. -/
def fsB3 : String → Option PILImage := fun p =>
  if p = "a.png" then some ⟨Mode.RGBA, 1, 1, fun _ _ => (0, 0, 0, 255)⟩
  else if p = "c.png" then some ⟨Mode.RGBA, 1, 1, fun _ _ => (0, 0, 0, 255)⟩ else none

theorem blank_boundaries_eq : compute_edge_boundaries ⟨1, 1, none, fun _ _ _ => 0⟩ (99/100) =
    Except.ok (0, 1, 0, 1) :=
  edgeBoundaries_uniform (g := toGray ⟨1, 1, none, fun _ _ _ => 0⟩) (99/100) 0
    (by decide) (by decide) (fun r _ c _ => rfl)

theorem blank_adjust_eq : adjustBox (1/10) 1 1 0 1 0 1 = ((0 : ℤ), 1, 0, 1) := by
  unfold adjustBox
  split
  · next hcond =>
    exfalso
    rcases hcond with hc | hc <;> norm_num at hc
  · rfl

theorem blank_remove_padding_eq : ipr_remove_padding (99/100) (1/10) ⟨1, 1, none, fun _ _ _ => 0⟩ =
    Except.ok (NpImage.crop ⟨1, 1, none, fun _ _ _ => 0⟩ 0 0 1 1) := by
  unfold ipr_remove_padding
  rw [blank_boundaries_eq]
  show Except.ok ((NpImage.mk 1 1 none (fun _ _ _ => 0)).crop
      (adjustBox (1/10) 1 1 0 1 0 1).2.2.1 (adjustBox (1/10) 1 1 0 1 0 1).1
      (adjustBox (1/10) 1 1 0 1 0 1).2.2.2 (adjustBox (1/10) 1 1 0 1 0 1).2.1) = _
  rw [blank_adjust_eq]

theorem process_batch_fs3_eq :
    process_batch (99/100) (1/10) fs3 ["a.png", "b.png", "c.png"] "out" =
      ([("out/processed_0.png", NpImage.crop ⟨1, 1, none, fun _ _ _ => 0⟩ 0 0 1 1)],
        some Err.sourceNotFound) := by
  have h1 : iprLoadAndProcess (99/100) (1/10) fs3 "a.png" =
      Except.ok (NpImage.crop ⟨1, 1, none, fun _ _ _ => 0⟩ 0 0 1 1) := by
    show ipr_remove_padding (99/100) (1/10) ⟨1, 1, none, fun _ _ _ => 0⟩ = _
    exact blank_remove_padding_eq
  have h2 : iprLoadAndProcess (99/100) (1/10) fs3 "b.png" =
      Except.error Err.sourceNotFound := rfl
  unfold process_batch
  simp only [process_batch_from]
  rw [h1, h2]
  rfl

/-- Claim C1 counterexample: for the 3-item batch whose second source is
missing, `process_batch` does not return 3 per-item results with the
failure captured and item 3 still processed.  Only one output (item 1) is
written before the FileNotFoundError escapes the loop; item 3 is never
processed. -/
theorem process_batch_aborts_on_missing_source :
    (process_batch (99/100) (1/10) fs3 ["a.png", "b.png", "c.png"] "out").1.map Prod.fst =
      ["out/processed_0.png"] ∧
    (process_batch (99/100) (1/10) fs3 ["a.png", "b.png", "c.png"] "out").2 =
      some Err.sourceNotFound := by
  rw [process_batch_fs3_eq]
  exact ⟨rfl, rfl⟩

/-- Claim C1 amended: failure isolation holds only in imagedit.py's `main`,
and only in the weak form of an existence pre-check: a missing source is
logged and skipped and the remaining items are still processed in order,
but no per-item `ProcessingResult` is returned.  `process_batch` in
image_processor.py has no per-item isolation at all: a missing source
raises out of the loop, keeping only the outputs already written and
leaving the remaining items unprocessed. -/
theorem batch_missing_source_amended :
    (imagedit_main fsB3 ["a.png", "b.png", "c.png"]).map Prod.fst = ["a.png", "c.png"] ∧
    (process_batch (99/100) (1/10) fs3 ["a.png", "b.png", "c.png"] "out").1.map Prod.fst =
      ["out/processed_0.png"] ∧
    (process_batch (99/100) (1/10) fs3 ["a.png", "b.png", "c.png"] "out").2 =
      some Err.sourceNotFound := by
  refine ⟨rfl, ?_, ?_⟩
  · rw [process_batch_fs3_eq]
    rfl
  · rw [process_batch_fs3_eq]

end ImagePad
